import Mathlib

/-!
Shallow embedding of the NFSv3 volume client (package `nfs`): the status
translator (`error.go`), the call wrapper, the directory-entry cache with
its janitor, the paged directory reader, the mutation operations and the
recursive tree delete (`nfs.go`).

Errors are modelled by an inductive type, time instants by `Int`, file
handles by `List Nat` (opaque byte sequences), and Go maps by association
lists with first-match lookup semantics.
-/

/-- A Go `error` value as produced by this client: the three well-known
`os` sentinel errors, the package's own `*Error` (which carries a message
string), plus tags for transport-level and decode-level failures coming
from the external collaborators. -/
inductive GoError where
  | osErrPermission : GoError
  | osErrExist : GoError
  | osErrNotExist : GoError
  | nfs (msg : String) : GoError
  | transport (tag : Nat) : GoError
  | decodeFail (tag : Nat) : GoError
deriving DecidableEq, Repr

/-- `os.IsNotExist` on the error values this client can produce: only the
sentinel `os.ErrNotExist` qualifies. -/
def osIsNotExist (e : GoError) : Bool :=
  e = GoError.osErrNotExist

-- Status-code constants from `error.go`.
def NFS3_OK : Nat := 0
def NFS3ERR_PERM : Nat := 1
def NFS3ERR_NOENT : Nat := 2
def NFS3ERR_IO : Nat := 5
def NFS3ERR_ACCES : Nat := 13
def NFS3ERR_EXIST : Nat := 17
def NFS3ERR_NOTDIR : Nat := 20
def NFS3ERR_ISDIR : Nat := 21
def NFS3ERR_NOTEMPTY : Nat := 66
def NFS3ERR_STALE : Nat := 70

/-- `NFS3Error` from `error.go`: a `switch` on the numeric status with
cases for `NFS3ERR_PERM`, `NFS3ERR_EXIST` and `NFS3ERR_NOENT`, and a
`default` returning `&Error{fmt.Sprintf("error: %d", errnum)}`.  The
trailing `return nil` of the Go function is unreachable (the `default`
case catches everything else, status `0` included), so the function
returns `some` error for every input. -/
def NFS3Error (errnum : Nat) : Option GoError :=
  if errnum = NFS3ERR_PERM then some GoError.osErrPermission
  else if errnum = NFS3ERR_EXIST then some GoError.osErrExist
  else if errnum = NFS3ERR_NOENT then some GoError.osErrNotExist
  else some (GoError.nfs ("error: " ++ Nat.repr errnum))

/-- `Target.call`: wraps the transport call, reads the leading status
word, and maps it through `NFS3Error`; any non-`nil` translated error
aborts before the response body is decoded.  `raw` is the transport
outcome: either a transport/read error or the decoded status word paired
with the remaining response stream. -/
def Target.call {α : Type} (raw : Except GoError (Nat × α)) :
    Except GoError α :=
  match raw with
  | .error e => .error e
  | .ok (status, rest) =>
    match NFS3Error status with
    | some e => .error e
    | none => .ok rest

/-- `IsNotDirError` is referenced by `RemoveAll` but defined outside the
available sources.  Modelled from the spec: the recursive delete inspects
whether a failure "indicates not a directory", the not-a-directory
protocol status being code 20; a status-translated error indicates it
exactly when it is the generic protocol error carrying code 20. -/
def IsNotDirError (e : GoError) : Bool :=
  e = GoError.nfs ("error: " ++ Nat.repr NFS3ERR_NOTDIR)

/-- A file handle: an opaque byte sequence, compared byte-for-byte. -/
abbrev FH := List Nat

/-- Directory type code.  The constant lives outside the available
sources; modelled from the spec, which fixes the directory type code
at 2 ("Distinguishes directories (type code 2)"). -/
def NF3Dir : Nat := 2

/-- `Fattr`, modelled from the spec's data model: attributes carry the
object's type code, permission bits and size (the remaining timestamp
fields play no role in any behaviour treated here). -/
structure Fattr where
  ftype : Nat
  mode : Nat
  size : Nat
deriving DecidableEq, Repr

/-- `cacheEntry` from `nfs.go`: child handle, child attributes and the
absolute expiration instant. -/
structure CacheEntry where
  fh : FH
  attr : Fattr
  expire : Int
deriving DecidableEq, Repr

/-- First-match association-list lookup; models reading a Go map. -/
def lookupA {β : Type} : List (String × β) → String → Option β
  | [], _ => none
  | (k, v) :: rest, key => if k = key then some v else lookupA rest key

/-- Remove every binding of a key; models `delete` on a Go map. -/
def eraseAllA {β : Type} : List (String × β) → String → List (String × β)
  | [], _ => []
  | (k, v) :: rest, key =>
    if k = key then eraseAllA rest key else (k, v) :: eraseAllA rest key

/-- Overwriting insert; models `m[key] = v` on a Go map. -/
def insertA {β : Type} (m : List (String × β)) (key : String) (v : β) :
    List (String × β) :=
  (key, v) :: eraseAllA m key

/-- One bucket of the entry cache: child name → cache entry. -/
abbrev Bucket := List (String × CacheEntry)

/-- The two-level entry cache of `Target`: string form of the parent
handle → bucket. -/
abbrev Cache := List (String × Bucket)

/-- `Target.parsefh`: Go's `string(fh)` byte-to-string conversion, an
injective encoding of the handle used as the outer cache key. -/
def parsefh (fh : FH) : String :=
  String.intercalate "," (fh.map Nat.repr)

/-- Outcome of one `cachedLookup`: the returned `(attr, fh)` or error,
the cache state afterwards, and whether a remote lookup call was
issued. -/
structure LookupOutcome where
  result : Except GoError (Fattr × FH)
  cacheAfter : Cache
  remoteCalled : Bool
deriving Repr

/-- The miss path of `Target.cachedLookup`: issue the remote `lookup`
(`lk`), and on success cache the result — but only when the resolved
attributes say directory (`attr.Type == 2`) — under expiration
`now + entryTimeout`. -/
def cachedLookupMiss (now entryTimeout : Int)
    (lk : FH → String → Except GoError (Fattr × FH))
    (cache : Cache) (fh : FH) (name : String) : LookupOutcome :=
  match lk fh name with
  | .error e => ⟨.error e, cache, true⟩
  | .ok (attr, newfh) =>
    if attr.ftype = 2 then
      let ino := parsefh fh
      let bucket := match lookupA cache ino with
        | some es => es
        | none => []
      ⟨.ok (attr, newfh),
        insertA cache ino (insertA bucket name ⟨newfh, attr, now + entryTimeout⟩),
        true⟩
    else ⟨.ok (attr, newfh), cache, true⟩

/-- `Target.cachedLookup` from `nfs.go`: consult the cache bucket for
`string(fh)`; a stored entry is honoured exactly when
`time.Since(e.expire) < 0`, i.e. when `now` is strictly before the
expiration; otherwise fall through to the remote miss path. -/
def cachedLookup (now entryTimeout : Int)
    (lk : FH → String → Except GoError (Fattr × FH))
    (cache : Cache) (fh : FH) (name : String) : LookupOutcome :=
  match lookupA cache (parsefh fh) with
  | some es =>
    match lookupA es name with
    | some e =>
      if now - e.expire < 0 then ⟨.ok (e.attr, e.fh), cache, false⟩
      else cachedLookupMiss now entryTimeout lk cache fh name
    | none => cachedLookupMiss now entryTimeout lk cache fh name
  | none => cachedLookupMiss now entryTimeout lk cache fh name

/-- `Target.invalidateEntryCache`: when a bucket for the parent handle
exists, delete the child name from it (the bucket itself stays, even if
now empty); otherwise leave the cache untouched. -/
def invalidateEntryCache (cache : Cache) (fh : FH) (name : String) : Cache :=
  match lookupA cache (parsefh fh) with
  | some es => insertA cache (parsefh fh) (eraseAllA es name)
  | none => cache

/-- Look a child entry up through both cache levels. -/
def lookup2 (cache : Cache) (ino name : String) : Option CacheEntry :=
  match lookupA cache ino with
  | some es => lookupA es name
  | none => none

/-!  The cache janitor (`Target.cleanupCache`).  One pass of the sweep is
modelled sequentially over the association lists (Go's map iteration
order is unspecified; the pass semantics — per-entry deletion test,
bucket removal at emptiness, counter cap — do not depend on it). -/

/-- Sweep one bucket, threading the inspection counter: an entry is
deleted when `now.After(e.expire)` (strictly past its expiration); the
counter is incremented after each inspected entry and the pass breaks as
soon as it exceeds 1000, leaving the unvisited remainder untouched.
Returns the surviving bucket, the counter, and whether the break
fired. -/
def sweepBucket (now : Int) : Bucket → Nat → Bucket × Nat × Bool
  | [], cnt => ([], cnt, false)
  | (n, e) :: rest, cnt =>
    let keep : Bucket := if e.expire < now then [] else [(n, e)]
    let cnt' := cnt + 1
    if cnt' > 1000 then (keep ++ rest, cnt', true)
    else
      let out := sweepBucket now rest cnt'
      (keep ++ out.1, out.2)

/-- One full sweep pass over the cache: buckets in order, each swept by
`sweepBucket`; a bucket is removed exactly when it had entries and lost
its last one (Go checks `len(es) == 0` right after each deletion, which
never removes an initially empty bucket); the break propagates, leaving
later buckets untouched. -/
def sweepPass (now : Int) : Cache → Nat → Cache × Nat × Bool
  | [], cnt => ([], cnt, false)
  | (fhKey, es) :: restC, cnt =>
    let out := sweepBucket now es cnt
    let kept : Cache := if es ≠ [] ∧ out.1 = [] then [] else [(fhKey, out.1)]
    if out.2.2 then (kept ++ restC, out.2.1, true)
    else
      let outRest := sweepPass now restC out.2.1
      (kept ++ outRest.1, outRest.2)

/-- Total number of entries held in the cache. -/
def cacheSize : Cache → Nat
  | [] => 0
  | (_, es) :: rest => es.length + cacheSize rest

/-- An unbounded sweep of one bucket (what a pass does when the cap is
never hit). -/
def sweepAllBucket (now : Int) : Bucket → Bucket
  | [] => []
  | (n, e) :: rest =>
    (if e.expire < now then [] else [(n, e)]) ++ sweepAllBucket now rest

/-- An unbounded sweep of the whole cache: every expired entry deleted,
every bucket that had entries and lost them all removed. -/
def fullSweep (now : Int) : Cache → Cache
  | [] => []
  | (k, es) :: rest =>
    (if es ≠ [] ∧ sweepAllBucket now es = [] then []
     else [(k, sweepAllBucket now es)]) ++ fullSweep now rest

/-!  The directory pager (`Target.readDirPlus`). -/

/-- `EntryPlus`, modelled from the spec's data model: a directory entry
carries a name, a pagination cookie, optional attributes and an optional
handle. -/
structure EntryPlus where
  fileName : String
  cookie : Nat
  attrSet : Bool
  attr : Fattr
  handleSet : Bool
  handle : FH
deriving DecidableEq, Repr

/-- One successfully decoded page of a directory listing: the page
header's cookie-verifier, the decoded run of entries, and the trailing
end-of-listing flag. -/
structure Page where
  cookieVerf : Nat
  entries : List EntryPlus
  eof : Bool
deriving DecidableEq, Repr

/-- Outcome of one paged call as the loop body sees it: a decoded page,
or a failure (transport error, error status, or a decode error of the
header, of an entry, or of the end-of-listing flag — all of which return
that error). -/
inductive PageResult where
  | ok (p : Page) : PageResult
  | fail (e : GoError) : PageResult
deriving Repr

/-- Result of `readDirPlus`: the accumulated entries, an error, or the
marker that the modelled response stream was exhausted with no
end-of-listing flag set (the Go loop would keep calling). -/
inductive RDResult where
  | ok (entries : List EntryPlus) : RDResult
  | fail (e : GoError) : RDResult
  | outOfPages : RDResult
deriving Repr

/-- The running `cookie` after decoding a page's entries: the loop body
assigns each decoded entry's cookie in turn, so it ends at the last
entry's cookie, or stays put when the page is empty. -/
def lastCookieOf (c : Nat) (es : List EntryPlus) : Nat :=
  es.foldl (fun _ e => e.cookie) c

/-- The `readDirPlus` loop over a stream of page responses (given in
request order).  Returns the list of `(cookie, cookieVerifier)` argument
pairs of the calls issued, and the result.  Each iteration issues one
call; on success it appends the page's entries, advances the cookie to
the last entry's cookie and the verifier to the page's verifier, and
repeats unless the page signalled end-of-listing. -/
def rdLoop : List PageResult → Nat → Nat → List EntryPlus →
    List (Nat × Nat) × RDResult
  | [], _, _, _ => ([], RDResult.outOfPages)
  | PageResult.fail e :: _, c, v, _ => ([(c, v)], RDResult.fail e)
  | PageResult.ok p :: rest, c, v, acc =>
    if p.eof then ([(c, v)], RDResult.ok (acc ++ p.entries))
    else
      let out := rdLoop rest (lastCookieOf c p.entries) p.cookieVerf
        (acc ++ p.entries)
      ((c, v) :: out.1, out.2)

/-- `Target.readDirPlus`: cookie and verifier both start at zero, the
entry accumulator empty. -/
def readDirPlus (pages : List PageResult) : List (Nat × Nat) × RDResult :=
  rdLoop pages 0 0 []

/-- Written from the spec's pagination contract: the expected argument
pair of each successive call — first call with cursor `(c, v)`, each
following call with the cookie advanced to the previous page's last
entry cookie and the verifier to the previous page's verifier, stopping
after the page that signals end-of-listing. -/
def specCallArgs : Nat → Nat → List Page → List (Nat × Nat)
  | _, _, [] => []
  | c, v, p :: rest =>
    (c, v) ::
      if p.eof then []
      else specCallArgs (lastCookieOf c p.entries) p.cookieVerf rest

/-!  The mutation operations (`Mkdir`, `Create`, `remove`, `rmDir`):
what each does after the parent has been resolved, as a function of the
wrapped call's outcome (and, where the response body is decoded, of the
decode's outcome) — returning the operation's result and the cache
afterwards. -/

/-- `PostOpFH3`: an optional file handle. -/
structure PostOpFH3 where
  isSet : Bool
  fh : FH
deriving DecidableEq, Repr

/-- The decoded `MkdirOk` response body (attribute and wcc fields play
no role here). -/
structure MkdirOk where
  fh : PostOpFH3
deriving DecidableEq, Repr

/-- The decoded `Create3Res` response body. -/
structure Create3Res where
  fh : PostOpFH3
deriving DecidableEq, Repr

/-- `Target.Mkdir` after resolving the parent to `fh`: on a call error
return it; decode the response, on a decode error return it; otherwise
invalidate the cached `(fh, newDir)` entry and return the new handle.
The cache is touched only on the success path. -/
def MkdirStep {α : Type} (cache : Cache) (fh : FH) (newDir : String)
    (callRes : Except GoError α) (dec : α → Except GoError MkdirOk) :
    Except GoError FH × Cache :=
  match callRes with
  | .error e => (.error e, cache)
  | .ok res =>
    match dec res with
    | .error e => (.error e, cache)
    | .ok m => (.ok m.fh.fh, invalidateEntryCache cache fh newDir)

/-- `Target.Create` after resolving the parent to `fh`: same shape as
`MkdirStep`. -/
def CreateStep {α : Type} (cache : Cache) (fh : FH) (newFile : String)
    (callRes : Except GoError α) (dec : α → Except GoError Create3Res) :
    Except GoError FH × Cache :=
  match callRes with
  | .error e => (.error e, cache)
  | .ok res =>
    match dec res with
    | .error e => (.error e, cache)
    | .ok m => (.ok m.fh.fh, invalidateEntryCache cache fh newFile)

/-- `Target.remove`: no response body is decoded; on a call error return
it with the cache untouched, on success invalidate the cached
`(fh, deleteFile)` entry. -/
def removeStep {α : Type} (cache : Cache) (fh : FH) (deleteFile : String)
    (callRes : Except GoError α) : Option GoError × Cache :=
  match callRes with
  | .error e => (some e, cache)
  | .ok _ => (none, invalidateEntryCache cache fh deleteFile)

/-- `Target.rmDir`: same shape as `removeStep`. -/
def rmDirStep {α : Type} (cache : Cache) (fh : FH) (name : String)
    (callRes : Except GoError α) : Option GoError × Cache :=
  match callRes with
  | .error e => (some e, cache)
  | .ok _ => (none, invalidateEntryCache cache fh name)

/-!  The recursive delete (`Target.removeAll` and `Target.RemoveAll`).

A listed entry is modelled as a tree node: the fields `removeAll` reads
(`FileName`, `Attr.Attr.Type`, `Handle.IsSet`) plus, in place of the
opaque `Handle.FH`, the listing the server would return for that handle.
Remote outcomes are supplied by an oracle mapping each operation —
identified by the directory's path from the deletion root and the
operation kind — to `none` (success) or `some e` (failure), and every
executed operation is recorded in a trace, in execution order. -/

/-- A directory entry as seen by the recursive delete. -/
inductive TEntry where
  | mk (fileName : String) (ftype : Nat) (handleSet : Bool)
      (children : List TEntry) : TEntry

/-- The remote operations the recursive delete issues. -/
inductive DOp where
  | readdir : DOp
  | rmdir (name : String) : DOp
  | removeFile (name : String) : DOp
  | lookupStep (name : String) : DOp
deriving DecidableEq, Repr

/-- An executed operation: the issuing directory's path plus the kind. -/
abbrev DeleteOp := List String × DOp

/-- The `for entry := range entries` loop body of `Target.removeAll`:
skip `.` and `..`; for a directory-typed entry, recurse into its handle
when one is present (listing it first), then `rmDir` it under the
current directory; for any other entry, `remove` it; abort on the first
failure. -/
def removeAllLoop (oracle : List String → DOp → Option GoError) :
    List String → List TEntry → List DeleteOp × Option GoError
  | _, [] => ([], none)
  | path, TEntry.mk name ftype hset children :: rest =>
    if name = "." ∨ name = ".." then removeAllLoop oracle path rest
    else if ftype = NF3Dir then
      if hset then
        match oracle (path ++ [name]) DOp.readdir with
        | some e => ([(path ++ [name], DOp.readdir)], some e)
        | none =>
          match removeAllLoop oracle (path ++ [name]) children with
          | (tr, some e) => ((path ++ [name], DOp.readdir) :: tr, some e)
          | (tr, none) =>
            match oracle path (DOp.rmdir name) with
            | some e =>
              ((path ++ [name], DOp.readdir) :: tr ++ [(path, DOp.rmdir name)],
                some e)
            | none =>
              match removeAllLoop oracle path rest with
              | (tr2, r) =>
                ((path ++ [name], DOp.readdir) :: tr ++
                  (path, DOp.rmdir name) :: tr2, r)
      else
        match oracle path (DOp.rmdir name) with
        | some e => ([(path, DOp.rmdir name)], some e)
        | none =>
          match removeAllLoop oracle path rest with
          | (tr2, r) => ((path, DOp.rmdir name) :: tr2, r)
    else
      match oracle path (DOp.removeFile name) with
      | some e => ([(path, DOp.removeFile name)], some e)
      | none =>
        match removeAllLoop oracle path rest with
        | (tr2, r) => ((path, DOp.removeFile name) :: tr2, r)

/-- `Target.removeAll` on the directory at `path` whose listing the
server would report as `listing`: list the directory (aborting on a
listing failure), then run the deletion loop. -/
def removeAllT (oracle : List String → DOp → Option GoError)
    (path : List String) (listing : List TEntry) :
    List DeleteOp × Option GoError :=
  match oracle path DOp.readdir with
  | some e => ([(path, DOp.readdir)], some e)
  | none =>
    match removeAllLoop oracle path listing with
    | (tr, r) => ((path, DOp.readdir) :: tr, r)

/-- `Target.RemoveAll` after resolving the parent: first a plain `rmDir`
of the leaf under the parent (outcome `rmdir1`); success or a
does-not-exist failure ends the operation successfully; a
not-a-directory failure is returned immediately; otherwise look the leaf
up under the parent (outcome `lookupRes`), recursively empty it via
`removeAllT`, and finally `rmDir` the now-empty leaf (outcome
`rmdirFinal`). -/
def RemoveAllGo (parentPath : List String) (deleteDir : String)
    (rmdir1 : Option GoError) (lookupRes : Except GoError Unit)
    (oracle : List String → DOp → Option GoError) (listing : List TEntry)
    (rmdirFinal : Option GoError) : List DeleteOp × Option GoError :=
  let attempt : DeleteOp := (parentPath, DOp.rmdir deleteDir)
  match rmdir1 with
  | none => ([attempt], none)
  | some e =>
    if osIsNotExist e then ([attempt], none)
    else if IsNotDirError e then ([attempt], some e)
    else
      match lookupRes with
      | .error e2 => ([attempt, (parentPath, DOp.lookupStep deleteDir)], some e2)
      | .ok _ =>
        match removeAllT oracle (parentPath ++ [deleteDir]) listing with
        | (tr, some e3) =>
          (attempt :: (parentPath, DOp.lookupStep deleteDir) :: tr, some e3)
        | (tr, none) =>
          (attempt :: (parentPath, DOp.lookupStep deleteDir) :: tr ++ [attempt],
            rmdirFinal)

/-- Written from the spec's recursive-delete narrative: the deletion
sequence for a directory listing — per non-pseudo entry in order, a
directory entry contributes the listing call and deletion sequence of
its subtree followed by its own `rmdir`, any other entry its `remove`. -/
def specDeleteEntries (path : List String) : List TEntry → List DeleteOp
  | [] => []
  | TEntry.mk name ftype _ children :: rest =>
    if name = "." ∨ name = ".." then specDeleteEntries path rest
    else if ftype = NF3Dir then
      ((path ++ [name], DOp.readdir) ::
          specDeleteEntries (path ++ [name]) children) ++
        (path, DOp.rmdir name) :: specDeleteEntries path rest
    else (path, DOp.removeFile name) :: specDeleteEntries path rest

/-- Every directory-typed entry of the tree comes with a handle. -/
def allHandles : List TEntry → Bool
  | [] => true
  | TEntry.mk _ ftype hset children :: rest =>
    (if ftype = NF3Dir then hset else true) && allHandles children &&
      allHandles rest

/-- The abort discipline of a traced outcome: on success every executed
operation succeeded; on failure the trace is a run of successful
operations followed by exactly the one operation that failed with the
returned error — nothing executes past the first failure, and the first
failure's error is the one propagated. -/
def TraceRespects (oracle : List String → DOp → Option GoError)
    (out : List DeleteOp × Option GoError) : Prop :=
  (out.2 = none → ∀ op ∈ out.1, oracle op.1 op.2 = none) ∧
  (∀ e, out.2 = some e → ∃ tr last, out.1 = tr ++ [last] ∧
    oracle last.1 last.2 = some e ∧ ∀ op ∈ tr, oracle op.1 op.2 = none)

/-- Total number of entries in a listed tree (each node counted once). -/
def teSize : List TEntry → Nat
  | [] => 0
  | TEntry.mk _ _ _ children :: rest => 1 + teSize children + teSize rest

/-- The spec's example tree `a/ {b/ {c.txt}, d.txt}` as the listing of
`a` (with the `.` and `..` pseudo-entries a server would report). -/
def exTree : List TEntry :=
  [TEntry.mk "." 2 true [], TEntry.mk ".." 2 true [],
   TEntry.mk "b" 2 true [TEntry.mk "c.txt" 1 false []],
   TEntry.mk "d.txt" 1 false []]

/-- Whether an `Except` outcome is a success. -/
def exceptIsOk {ε α : Type} : Except ε α → Bool
  | .ok _ => true
  | .error _ => false

/-- A bucket holding 1002 distinct entries, all long expired. -/
def bigBucket : Bucket :=
  (List.range 1002).map fun i => (Nat.repr i, ⟨[], ⟨0, 0, 0⟩, -1⟩)

/-- A cache holding the 1002-entry bucket. -/
def bigCache : Cache := [("h", bigBucket)]

-- Concrete material for the witnesses.
def exAttrDir : Fattr := ⟨2, 493, 4096⟩
def exAttrFile : Fattr := ⟨1, 420, 12⟩
def exEntry : CacheEntry := ⟨[5, 6], exAttrDir, 10⟩
def exCache : Cache := [(parsefh [1], [("x", exEntry)])]
def exLk : FH → String → Except GoError (Fattr × FH) :=
  fun _ _ => Except.ok (exAttrDir, [9])
def exLkFile : FH → String → Except GoError (Fattr × FH) :=
  fun _ _ => Except.ok (exAttrFile, [9])
def exDirEnt1 : EntryPlus := ⟨"a.txt", 1, true, exAttrFile, false, []⟩
def exDirEnt2 : EntryPlus := ⟨"b.txt", 2, true, exAttrFile, false, []⟩
def exDirEnt3 : EntryPlus := ⟨"sub", 3, true, exAttrDir, true, [7]⟩
def exPage1 : Page := ⟨77, [exDirEnt1, exDirEnt2], false⟩
def exPage2 : Page := ⟨77, [exDirEnt3], true⟩

/-!  Theorems. -/

/-- C1: the claim says a protocol status of zero is treated as success —
the status translator returning no error for code 0 and the call wrapper
proceeding to decode.  The code as written does the opposite: the
`switch` in `NFS3Error` has no case for `NFS3_OK`, so status 0 falls
into the `default` branch and yields the non-nil generic error
`error: 0`, making the call wrapper fail on every zero-status response
(the function's trailing `return nil` is unreachable and the `NFS3_OK`
constant unused — the claim states the evident intent). -/
theorem c1_zero_status_rejected :
    NFS3Error 0 = some (GoError.nfs "error: 0") ∧
      Target.call (Except.ok ((0 : Nat), (42 : Nat))) =
        Except.error (GoError.nfs "error: 0") :=
  ⟨rfl, rfl⟩

/-- C2 counterexample: protocol code 13 does not map to the well-known
permission-denied error; it falls into the generic branch.  (It is
code 1 that maps to permission-denied, so "every other non-zero code
maps to a generic error" also fails at 1.) -/
theorem c2_counterexample :
    NFS3Error 13 ≠ some GoError.osErrPermission ∧
      NFS3Error 13 = some (GoError.nfs "error: 13") ∧
      NFS3Error 1 = some GoError.osErrPermission := by
  refine ⟨?_, rfl, rfl⟩
  decide

/-- C2 amended: the status translator maps code 2 to the well-known
not-found error, code 17 to the well-known already-exists error, and
code 1 (not 13) to the well-known permission-denied error; every
non-zero code other than 1, 2 and 17 — code 13 included — maps to a
generic error carrying the numeric code value. -/
theorem c2_status_mapping (n : Nat) (h1 : n ≠ 1) (h2 : n ≠ 2)
    (h17 : n ≠ 17) :
    NFS3Error 2 = some GoError.osErrNotExist ∧
      NFS3Error 17 = some GoError.osErrExist ∧
      NFS3Error 1 = some GoError.osErrPermission ∧
      NFS3Error n = some (GoError.nfs ("error: " ++ Nat.repr n)) := by
  refine ⟨rfl, rfl, rfl, ?_⟩
  simp [NFS3Error, NFS3ERR_PERM, NFS3ERR_EXIST, NFS3ERR_NOENT, h1, h2, h17]

/-- C2 witness: the unmapped code 9999 yields the generic error carrying
9999. -/
theorem c2_status_mapping_witness :
    NFS3Error 9999 = some (GoError.nfs "error: 9999") :=
  (c2_status_mapping 9999 (by decide) (by decide) (by decide)).2.2.2

theorem lookupA_insertA {β : Type} (m : List (String × β)) (k : String)
    (v : β) : lookupA (insertA m k v) k = some v := by
  simp [insertA, lookupA]

theorem lookupA_eraseAllA {β : Type} (m : List (String × β)) (k : String) :
    lookupA (eraseAllA m k) k = none := by
  induction m with
  | nil => rfl
  | cons p rest ih =>
    obtain ⟨k', v⟩ := p
    by_cases h : k' = k
    · simp [eraseAllA, h, ih]
    · simp [eraseAllA, lookupA, h, ih]

theorem cachedLookupMiss_remote (now entryTimeout : Int)
    (lk : FH → String → Except GoError (Fattr × FH)) (cache : Cache)
    (fh : FH) (name : String) :
    (cachedLookupMiss now entryTimeout lk cache fh name).remoteCalled = true := by
  unfold cachedLookupMiss
  cases lk fh name with
  | error e => rfl
  | ok p =>
    obtain ⟨attr, newfh⟩ := p
    by_cases h : attr.ftype = 2 <;> simp [h]

theorem cachedLookup_eq_miss (now entryTimeout : Int)
    (lk : FH → String → Except GoError (Fattr × FH)) (cache : Cache)
    (fh : FH) (name : String)
    (h : (cachedLookup now entryTimeout lk cache fh name).remoteCalled = true) :
    cachedLookup now entryTimeout lk cache fh name
      = cachedLookupMiss now entryTimeout lk cache fh name := by
  revert h
  unfold cachedLookup
  split
  · split
    · split
      · intro h; exact absurd h (by simp)
      · intro _; rfl
    · intro _; rfl
  · intro _; rfl

/-- C3: a cached `(handle, attributes)` pair stored with expiration
`e.expire` is returned without a remote call exactly when the lookup's
current time is strictly before the expiration; once the current time
reaches or passes it, the entry is treated as absent — the lookup
behaves as the miss path and a fresh remote lookup call is issued. -/
theorem c3_cache_ttl (now entryTimeout : Int)
    (lk : FH → String → Except GoError (Fattr × FH)) (cache : Cache)
    (fh : FH) (name : String) (es : Bucket) (e : CacheEntry)
    (hb : lookupA cache (parsefh fh) = some es)
    (he : lookupA es name = some e) :
    (now < e.expire →
      cachedLookup now entryTimeout lk cache fh name
        = ⟨.ok (e.attr, e.fh), cache, false⟩) ∧
    (e.expire ≤ now →
      cachedLookup now entryTimeout lk cache fh name
          = cachedLookupMiss now entryTimeout lk cache fh name ∧
        (cachedLookup now entryTimeout lk cache fh name).remoteCalled = true) := by
  constructor
  · intro hlt
    simp only [cachedLookup, hb, he]
    rw [if_pos (by omega)]
  · intro hge
    have heq : cachedLookup now entryTimeout lk cache fh name
        = cachedLookupMiss now entryTimeout lk cache fh name := by
      simp only [cachedLookup, hb, he]
      rw [if_neg (by omega)]
    exact ⟨heq, heq ▸ cachedLookupMiss_remote now entryTimeout lk cache fh name⟩

/-- C3 witness: with the entry expiring at 10, a lookup at time 3 is
served from the cache with no remote call, and a lookup at time 10 goes
remote. -/
theorem c3_cache_ttl_witness :
    cachedLookup 3 5 exLk exCache [1] "x"
        = ⟨.ok (exAttrDir, [5, 6]), exCache, false⟩ ∧
      (cachedLookup 10 5 exLk exCache [1] "x").remoteCalled = true := by
  constructor
  · exact (c3_cache_ttl 3 5 exLk exCache [1] "x" [("x", exEntry)] exEntry
      rfl rfl).1 (by decide)
  · exact ((c3_cache_ttl 10 5 exLk exCache [1] "x" [("x", exEntry)] exEntry
      rfl rfl).2 (by decide)).2

/-- C4: when a component goes remote and the lookup succeeds, a cache
entry for it is created if and only if the resolved attributes carry the
directory type code 2: a directory result is stored (with expiration
`now + entryTimeout`), any other result — a regular file in particular —
leaves the cache exactly as it was, regardless of the TTL. -/
theorem c4_only_dirs_cached (now entryTimeout : Int)
    (lk : FH → String → Except GoError (Fattr × FH)) (cache : Cache)
    (fh : FH) (name : String) (attr : Fattr) (newfh : FH)
    (hrem : (cachedLookup now entryTimeout lk cache fh name).remoteCalled = true)
    (hlk : lk fh name = .ok (attr, newfh)) :
    (attr.ftype = 2 →
      lookup2 (cachedLookup now entryTimeout lk cache fh name).cacheAfter
          (parsefh fh) name = some ⟨newfh, attr, now + entryTimeout⟩) ∧
    (attr.ftype ≠ 2 →
      (cachedLookup now entryTimeout lk cache fh name).cacheAfter = cache) := by
  rw [cachedLookup_eq_miss now entryTimeout lk cache fh name hrem]
  unfold cachedLookupMiss
  rw [hlk]
  constructor
  · intro hdir
    simp only [hdir, if_pos]
    simp only [lookup2, lookupA_insertA]
  · intro hnot
    simp [hnot]

/-- C4 witness: an expired-entry lookup that resolves to a directory
stores the fresh handle with expiration 25 = 20 + 5; the same lookup
resolving to a regular file leaves the cache unchanged. -/
theorem c4_only_dirs_cached_witness :
    lookup2 (cachedLookup 20 5 exLk exCache [1] "x").cacheAfter
        (parsefh [1]) "x" = some ⟨[9], exAttrDir, 25⟩ ∧
      (cachedLookup 20 5 exLkFile exCache [1] "x").cacheAfter = exCache := by
  constructor
  · exact (c4_only_dirs_cached 20 5 exLk exCache [1] "x" exAttrDir [9]
      rfl rfl).1 rfl
  · exact (c4_only_dirs_cached 20 5 exLkFile exCache [1] "x" exAttrFile [9]
      rfl rfl).2 (by decide)

theorem invalidate_then_remote (cache : Cache) (fh : FH) (name : String)
    (now entryTimeout : Int)
    (lk : FH → String → Except GoError (Fattr × FH)) :
    (cachedLookup now entryTimeout lk (invalidateEntryCache cache fh name)
      fh name).remoteCalled = true := by
  unfold invalidateEntryCache
  cases hb : lookupA cache (parsefh fh) with
  | none =>
    simp only [cachedLookup, hb]
    exact cachedLookupMiss_remote now entryTimeout lk cache fh name
  | some es =>
    have h1 : lookupA (insertA cache (parsefh fh) (eraseAllA es name))
        (parsefh fh) = some (eraseAllA es name) :=
      lookupA_insertA cache (parsefh fh) (eraseAllA es name)
    have h2 : lookupA (eraseAllA es name) name = none :=
      lookupA_eraseAllA es name
    simp only [cachedLookup, h1, h2]
    exact cachedLookupMiss_remote now entryTimeout lk _ fh name

/-- C8: for each of mkdir, create, remove and rmdir (after the parent
resolved to `fh`): the operation's result is exactly the propagated
call/decode outcome, the cache after the operation is the input cache
with the `(fh, name)` entry invalidated when the operation succeeded and
the input cache unchanged on any failure — and a lookup of that name on
the invalidated cache always goes to a fresh remote lookup call. -/
theorem c8_mutation_invalidation {α β γ δ : Type} (cache : Cache)
    (fh : FH) (name : String)
    (callM : Except GoError α) (decM : α → Except GoError MkdirOk)
    (callC : Except GoError β) (decC : β → Except GoError Create3Res)
    (callR : Except GoError γ) (callD : Except GoError δ) :
    ((MkdirStep cache fh name callM decM).1
        = callM.bind fun s => (decM s).map fun m => m.fh.fh) ∧
    ((MkdirStep cache fh name callM decM).2
        = if exceptIsOk (MkdirStep cache fh name callM decM).1
          then invalidateEntryCache cache fh name else cache) ∧
    ((CreateStep cache fh name callC decC).1
        = callC.bind fun s => (decC s).map fun m => m.fh.fh) ∧
    ((CreateStep cache fh name callC decC).2
        = if exceptIsOk (CreateStep cache fh name callC decC).1
          then invalidateEntryCache cache fh name else cache) ∧
    ((removeStep cache fh name callR).1
        = match callR with | .error e => some e | .ok _ => none) ∧
    ((removeStep cache fh name callR).2
        = if (removeStep cache fh name callR).1.isNone
          then invalidateEntryCache cache fh name else cache) ∧
    ((rmDirStep cache fh name callD).1
        = match callD with | .error e => some e | .ok _ => none) ∧
    ((rmDirStep cache fh name callD).2
        = if (rmDirStep cache fh name callD).1.isNone
          then invalidateEntryCache cache fh name else cache) ∧
    (∀ now entryTimeout lk,
      (cachedLookup now entryTimeout lk (invalidateEntryCache cache fh name)
        fh name).remoteCalled = true) := by
  refine ⟨?_, ?_, ?_, ?_, ?_, ?_, ?_, ?_,
    fun now entryTimeout lk => invalidate_then_remote cache fh name now entryTimeout lk⟩
  · cases callM with
    | error e => rfl
    | ok s => cases hm : decM s <;> simp [MkdirStep, hm, Except.bind, Except.map]
  · cases callM with
    | error e => rfl
    | ok s => cases hm : decM s <;> simp [MkdirStep, hm, exceptIsOk]
  · cases callC with
    | error e => rfl
    | ok s => cases hc : decC s <;> simp [CreateStep, hc, Except.bind, Except.map]
  · cases callC with
    | error e => rfl
    | ok s => cases hc : decC s <;> simp [CreateStep, hc, exceptIsOk]
  · cases callR <;> rfl
  · cases callR <;> simp [removeStep]
  · cases callD <;> rfl
  · cases callD <;> simp [rmDirStep]

theorem sweepBucket_cnt (now : Int) (es : Bucket) (cnt : Nat)
    (h : cnt ≤ 1000) :
    (sweepBucket now es cnt).2.1 = min (cnt + es.length) 1001 ∧
      ((sweepBucket now es cnt).2.2 = true ↔ 1001 ≤ cnt + es.length) := by
  induction es generalizing cnt with
  | nil =>
    constructor
    · show cnt = min (cnt + List.length []) 1001
      simp only [List.length_nil]
      omega
    · show false = true ↔ 1001 ≤ cnt + List.length []
      simp only [List.length_nil]
      constructor
      · intro hx; exact absurd hx (by simp)
      · intro hx; omega
  | cons p rest ih =>
    obtain ⟨n, e⟩ := p
    simp only [sweepBucket, List.length_cons]
    by_cases hc : cnt + 1 > 1000
    · rw [if_pos hc]
      constructor
      · show cnt + 1 = min (cnt + (rest.length + 1)) 1001
        omega
      · show true = true ↔ 1001 ≤ cnt + (rest.length + 1)
        constructor
        · intro _; omega
        · intro _; rfl
    · rw [if_neg hc]
      have hih := ih (cnt + 1) (by omega)
      constructor
      · show (sweepBucket now rest (cnt + 1)).2.1 = min (cnt + (rest.length + 1)) 1001
        rw [hih.1]
        omega
      · show (sweepBucket now rest (cnt + 1)).2.2 = true ↔ 1001 ≤ cnt + (rest.length + 1)
        rw [hih.2]
        constructor <;> (intro hx; omega)

theorem sweepPass_le (now : Int) (c : Cache) :
    ∀ cnt : Nat, cnt ≤ 1000 → (sweepPass now c cnt).2.1 ≤ 1001 := by
  induction c with
  | nil => intro cnt h; show cnt ≤ 1001; omega
  | cons b rest ih =>
    intro cnt h
    obtain ⟨k, es⟩ := b
    have hb := sweepBucket_cnt now es cnt h
    simp only [sweepPass]
    split
    · show (sweepBucket now es cnt).2.1 ≤ 1001
      rw [hb.1]; omega
    · next hstop =>
      show (sweepPass now rest (sweepBucket now es cnt).2.1).2.1 ≤ 1001
      have hlt : ¬ 1001 ≤ cnt + es.length := fun hge => hstop (hb.2.mpr hge)
      have heq : (sweepBucket now es cnt).2.1 = cnt + es.length := by
        rw [hb.1]; omega
      rw [heq]
      exact ih (cnt + es.length) (by omega)

theorem sweepBucket_small (now : Int) (es : Bucket) (cnt : Nat)
    (h : cnt + es.length ≤ 1000) :
    sweepBucket now es cnt = (sweepAllBucket now es, cnt + es.length, false) := by
  induction es generalizing cnt with
  | nil => simp [sweepBucket, sweepAllBucket]
  | cons p rest ih =>
    obtain ⟨n, e⟩ := p
    simp only [List.length_cons] at h
    simp only [sweepBucket, sweepAllBucket, List.length_cons]
    rw [if_neg (by omega)]
    rw [ih (cnt + 1) (by omega)]
    have harith : cnt + (rest.length + 1) = cnt + 1 + rest.length := by omega
    rw [harith]

theorem sweepPass_small (now : Int) (c : Cache) :
    ∀ cnt : Nat, cnt + cacheSize c ≤ 1000 →
      sweepPass now c cnt = (fullSweep now c, cnt + cacheSize c, false) := by
  induction c with
  | nil => intro cnt h; simp [sweepPass, fullSweep, cacheSize]
  | cons b rest ih =>
    intro cnt h
    obtain ⟨k, es⟩ := b
    simp only [cacheSize] at h ⊢
    have hsb := sweepBucket_small now es cnt (by omega)
    simp only [sweepPass, hsb]
    rw [if_neg Bool.false_ne_true]
    rw [ih (cnt + es.length) (by omega)]
    simp only [fullSweep, Prod.mk.injEq]
    refine ⟨trivial, ?_, trivial⟩
    omega

theorem sweepPass_single_stop (now : Int) (k : String) (es : Bucket)
    (cnt : Nat) (restC : Cache)
    (h : (sweepBucket now es cnt).2.2 = true) :
    (sweepPass now ((k, es) :: restC) cnt).2.1
      = (sweepBucket now es cnt).2.1 := by
  simp only [sweepPass]
  split
  · rfl
  · next hn => exact absurd h hn

/-- C9 counterexample: on a cache holding 1002 entries, a single sweep
pass inspects 1001 of them — more than the claimed bound of 1000. -/
theorem c9_counterexample :
    (sweepPass 0 bigCache 0).2.1 = 1001 ∧
      ¬ (sweepPass 0 bigCache 0).2.1 ≤ 1000 := by
  have hlen : bigBucket.length = 1002 := by simp [bigBucket]
  have hb := sweepBucket_cnt 0 bigBucket 0 (by omega)
  rw [hlen] at hb
  have h1 : (sweepBucket 0 bigBucket 0).2.1 = 1001 := by rw [hb.1]; omega
  have h2 : (sweepBucket 0 bigBucket 0).2.2 = true := hb.2.mpr (by omega)
  have hmain : (sweepPass 0 bigCache 0).2.1 = 1001 := by
    rw [show bigCache = [("h", bigBucket)] from rfl]
    rw [sweepPass_single_stop 0 "h" bigBucket 0 [] h2]
    exact h1
  exact ⟨hmain, by omega⟩

/-- C9 amended: a single sweep pass of the cache janitor inspects at
most 1001 cache entries — not 1000: the counter is incremented after
each inspected entry and the pass breaks only once the counter exceeds
1000 — deleting the inspected entries whose expiration has passed and
removing a parent bucket once its last child is gone; when the cache
holds at most 1000 entries the pass is exactly the unbounded sweep, and
entries past the cap are left untouched for a later pass. -/
theorem c9_sweep_cap (now : Int) (cache : Cache) :
    (sweepPass now cache 0).2.1 ≤ 1001 ∧
      (cacheSize cache ≤ 1000 →
        sweepPass now cache 0 = (fullSweep now cache, cacheSize cache, false)) := by
  constructor
  · exact sweepPass_le now cache 0 (by omega)
  · intro h
    have := sweepPass_small now cache 0 (by omega)
    simpa using this

/-- C9 witness: a one-entry cache whose entry expired at 10, swept at
time 20 — the pass inspects the single entry, deletes it, and removes
the emptied bucket. -/
theorem c9_sweep_cap_witness : sweepPass 20 exCache 0 = ([], 1, false) := by
  have h := (c9_sweep_cap 20 exCache).2 (by decide)
  exact h.trans (by decide)

theorem rdLoop_runs (plast : Page) (hlast : plast.eof = true) :
    ∀ (mid : List Page), (∀ p ∈ mid, p.eof = false) →
    ∀ (c v : Nat) (acc : List EntryPlus),
      rdLoop ((mid ++ [plast]).map PageResult.ok) c v acc
        = (specCallArgs c v (mid ++ [plast]),
            RDResult.ok (acc ++ ((mid ++ [plast]).map Page.entries).flatten)) := by
  intro mid
  induction mid with
  | nil =>
    intro _ c v acc
    simp only [List.nil_append, List.map_cons, List.map_nil, rdLoop,
      specCallArgs, hlast, if_true, List.flatten]
    simp
  | cons p rest ih =>
    intro hmid c v acc
    have hp : p.eof = false := hmid p (List.mem_cons_self p rest)
    have ih' := ih (fun q hq => hmid q (List.mem_cons_of_mem p hq))
    simp only [List.cons_append, List.map_cons, List.append_eq, rdLoop]
    rw [if_neg (by rw [hp]; exact Bool.false_ne_true)]
    rw [ih' (lastCookieOf c p.entries) p.cookieVerf (acc ++ p.entries)]
    simp only [specCallArgs, hp, Bool.false_eq_true, if_false, List.map_cons,
      List.flatten, List.append_assoc]

theorem specCallArgs_length (plast : Page) (hlast : plast.eof = true) :
    ∀ (mid : List Page), (∀ p ∈ mid, p.eof = false) →
    ∀ (c v : Nat),
      (specCallArgs c v (mid ++ [plast])).length = (mid ++ [plast]).length := by
  intro mid
  induction mid with
  | nil =>
    intro _ c v
    simp [specCallArgs, hlast]
  | cons p rest ih =>
    intro hmid c v
    have hp : p.eof = false := hmid p (List.mem_cons_self p rest)
    have ih' := ih (fun q hq => hmid q (List.mem_cons_of_mem p hq))
    simp only [List.cons_append, List.append_eq, specCallArgs, hp,
      Bool.false_eq_true, if_false, List.length_cons]
    rw [ih' (lastCookieOf c p.entries) p.cookieVerf]

/-- C5: a directory listing served as pages `mid ++ [plast]` where only
the final page carries the end-of-listing flag: the paged reader returns
the concatenation of all pages' entries in request order, stops exactly
at the flagged page, issues exactly one remote call per page, and each
successive call carries the previous page's last entry cookie and the
previous page's verifier (the exact argument sequence `specCallArgs`,
starting from the zero cursor). -/
theorem c5_pagination (mid : List Page) (plast : Page)
    (hmid : ∀ p ∈ mid, p.eof = false) (hlast : plast.eof = true) :
    readDirPlus ((mid ++ [plast]).map PageResult.ok)
        = (specCallArgs 0 0 (mid ++ [plast]),
            RDResult.ok (((mid ++ [plast]).map Page.entries).flatten)) ∧
      (readDirPlus ((mid ++ [plast]).map PageResult.ok)).1.length
        = (mid ++ [plast]).length := by
  have h := rdLoop_runs plast hlast mid hmid 0 0 []
  constructor
  · simpa [readDirPlus] using h
  · show (rdLoop ((mid ++ [plast]).map PageResult.ok) 0 0 []).1.length = _
    rw [h]
    exact specCallArgs_length plast hlast mid hmid 0 0

/-- C5 witness: a 3-entry directory split across 2 pages — all 3 entries
come back in cookie order, 2 calls are made, the second carrying the
first page's last cookie (2) and verifier (77). -/
theorem c5_pagination_witness :
    readDirPlus [PageResult.ok exPage1, PageResult.ok exPage2]
      = ([(0, 0), (2, 77)],
          RDResult.ok [exDirEnt1, exDirEnt2, exDirEnt3]) := by
  have h := (c5_pagination [exPage1] exPage2
    (by intro p hp; rw [List.mem_singleton] at hp; subst hp; rfl) rfl).1
  exact h

theorem respects_nilOk (oracle : List String → DOp → Option GoError) :
    TraceRespects oracle ([], none) := by
  constructor
  · intro _ op hop; exact absurd hop (List.not_mem_nil op)
  · intro e he; exact absurd he (by simp)

theorem respects_failSingle (oracle : List String → DOp → Option GoError)
    (op : DeleteOp) (e : GoError) (hop : oracle op.1 op.2 = some e) :
    TraceRespects oracle ([op], some e) := by
  constructor
  · intro h; exact absurd h (by simp)
  · intro e' he'
    refine ⟨[], op, rfl, ?_, ?_⟩
    · rw [hop]; exact he'.symm ▸ rfl
    · intro q hq; exact absurd hq (List.not_mem_nil q)

theorem respects_prependOk (oracle : List String → DOp → Option GoError)
    (pre : List DeleteOp) (hpre : ∀ op ∈ pre, oracle op.1 op.2 = none)
    (out : List DeleteOp × Option GoError) (h : TraceRespects oracle out) :
    TraceRespects oracle (pre ++ out.1, out.2) := by
  constructor
  · intro hnone op hop
    rcases List.mem_append.mp hop with h1 | h2
    · exact hpre op h1
    · exact h.1 hnone op h2
  · intro e he
    obtain ⟨tr, last, heq, hlast, hall⟩ := h.2 e he
    refine ⟨pre ++ tr, last, ?_, hlast, ?_⟩
    · show pre ++ out.1 = (pre ++ tr) ++ [last]
      rw [heq, List.append_assoc]
    · intro op hop
      rcases List.mem_append.mp hop with h1 | h2
      · exact hpre op h1
      · exact hall op h2

theorem respects_congr (oracle : List String → DOp → Option GoError)
    (l1 l2 : List DeleteOp) (r : Option GoError) (heq : l1 = l2)
    (h : TraceRespects oracle (l1, r)) : TraceRespects oracle (l2, r) :=
  heq ▸ h

theorem removeAllLoop_success
    (oracle : List String → DOp → Option GoError)
    (hor : ∀ p op, oracle p op = none) :
    ∀ (n : Nat) (path : List String) (ts : List TEntry), teSize ts ≤ n →
      allHandles ts = true →
      removeAllLoop oracle path ts = (specDeleteEntries path ts, none) := by
  intro n
  induction n with
  | zero =>
    intro path ts hsz hall
    cases ts with
    | nil => simp [removeAllLoop, specDeleteEntries]
    | cons t rest =>
      cases t with
      | mk name ftype hset children =>
        exfalso
        simp [teSize] at hsz
  | succ n ih =>
    intro path ts hsz hall
    cases ts with
    | nil => simp [removeAllLoop, specDeleteEntries]
    | cons t rest =>
      cases t with
      | mk name ftype hset children =>
        simp only [teSize] at hsz
        simp only [allHandles, Bool.and_eq_true] at hall
        by_cases hdot : name = "." ∨ name = ".."
        · simp only [removeAllLoop, specDeleteEntries, if_pos hdot]
          exact ih path rest (by omega) hall.2
        · by_cases hd : ftype = NF3Dir
          · have hs : hset = true := by
              have := hall.1.1
              rwa [if_pos hd] at this
            have ihc := ih (path ++ [name]) children (by omega) hall.1.2
            have ihr := ih path rest (by omega) hall.2
            simp only [removeAllLoop, specDeleteEntries, if_neg hdot,
              if_pos hd, hs, if_true, hor, ihc, ihr, List.cons_append,
              List.append_assoc]
          · have ihr := ih path rest (by omega) hall.2
            simp only [removeAllLoop, specDeleteEntries, if_neg hdot,
              if_neg hd, hor, ihr]

theorem removeAllLoop_respects
    (oracle : List String → DOp → Option GoError) :
    ∀ (n : Nat) (path : List String) (ts : List TEntry), teSize ts ≤ n →
      TraceRespects oracle (removeAllLoop oracle path ts) := by
  intro n
  induction n with
  | zero =>
    intro path ts hsz
    cases ts with
    | nil =>
      have h : removeAllLoop oracle path [] = ([], none) := by
        simp [removeAllLoop]
      rw [h]
      exact respects_nilOk oracle
    | cons t rest =>
      cases t with
      | mk name ftype hset children =>
        exfalso
        simp only [teSize] at hsz
        omega
  | succ n ih =>
    intro path ts hsz
    cases ts with
    | nil =>
      have h : removeAllLoop oracle path [] = ([], none) := by
        simp [removeAllLoop]
      rw [h]
      exact respects_nilOk oracle
    | cons t rest =>
      cases t with
      | mk name ftype hset children =>
        simp only [teSize] at hsz
        by_cases hdot : name = "." ∨ name = ".."
        · have h : removeAllLoop oracle path
              (TEntry.mk name ftype hset children :: rest)
                = removeAllLoop oracle path rest := by
            simp only [removeAllLoop, if_pos hdot]
          rw [h]
          exact ih path rest (by omega)
        · by_cases hd : ftype = NF3Dir
          · by_cases hs : hset = true
            · cases ho : oracle (path ++ [name]) DOp.readdir with
              | some e =>
                have h : removeAllLoop oracle path
                    (TEntry.mk name ftype hset children :: rest)
                      = ([(path ++ [name], DOp.readdir)], some e) := by
                  simp only [removeAllLoop, if_neg hdot, if_pos hd, hs,
                    if_true, ho]
                rw [h]
                exact respects_failSingle oracle (path ++ [name], DOp.readdir)
                  e ho
              | none =>
                rcases hrec : removeAllLoop oracle (path ++ [name]) children
                  with ⟨tr, r⟩
                have ihc := ih (path ++ [name]) children (by omega)
                rw [hrec] at ihc
                cases r with
                | some e =>
                  have h : removeAllLoop oracle path
                      (TEntry.mk name ftype hset children :: rest)
                        = ((path ++ [name], DOp.readdir) :: tr, some e) := by
                    simp only [removeAllLoop, if_neg hdot, if_pos hd, hs,
                      if_true, ho, hrec]
                  rw [h]
                  exact respects_prependOk oracle [(path ++ [name], DOp.readdir)]
                    (by
                      intro op hop
                      rw [List.mem_singleton] at hop
                      subst hop
                      exact ho)
                    (tr, some e) ihc
                | none =>
                  cases ho2 : oracle path (DOp.rmdir name) with
                  | some e =>
                    have h : removeAllLoop oracle path
                        (TEntry.mk name ftype hset children :: rest)
                          = ((path ++ [name], DOp.readdir) :: tr ++
                              [(path, DOp.rmdir name)], some e) := by
                      simp only [removeAllLoop, if_neg hdot, if_pos hd, hs,
                        if_true, ho, hrec, ho2]
                    rw [h]
                    refine respects_prependOk oracle
                      ((path ++ [name], DOp.readdir) :: tr) ?_
                      ([(path, DOp.rmdir name)], some e)
                      (respects_failSingle oracle (path, DOp.rmdir name) e ho2)
                    intro op hop
                    rcases List.mem_cons.mp hop with h1 | h2
                    · subst h1; exact ho
                    · exact ihc.1 rfl op h2
                  | none =>
                    rcases hrest : removeAllLoop oracle path rest with ⟨tr2, r2⟩
                    have ihr := ih path rest (by omega)
                    rw [hrest] at ihr
                    have h : removeAllLoop oracle path
                        (TEntry.mk name ftype hset children :: rest)
                          = ((path ++ [name], DOp.readdir) :: tr ++
                              (path, DOp.rmdir name) :: tr2, r2) := by
                      simp only [removeAllLoop, if_neg hdot, if_pos hd, hs,
                        if_true, ho, hrec, ho2, hrest]
                    rw [h]
                    have hpre : ∀ op ∈ ((path ++ [name], DOp.readdir) :: tr) ++
                        [(path, DOp.rmdir name)], oracle op.1 op.2 = none := by
                      intro op hop
                      rcases List.mem_append.mp hop with h1 | h2
                      · rcases List.mem_cons.mp h1 with h3 | h4
                        · subst h3; exact ho
                        · exact ihc.1 rfl op h4
                      · rw [List.mem_singleton] at h2
                        subst h2
                        exact ho2
                    have hres := respects_prependOk oracle
                      (((path ++ [name], DOp.readdir) :: tr) ++
                        [(path, DOp.rmdir name)]) hpre (tr2, r2) ihr
                    exact respects_congr oracle _ _ r2 (by simp) hres
            · have hsf : hset = false := by
                revert hs; cases hset <;> simp
              cases ho2 : oracle path (DOp.rmdir name) with
              | some e =>
                have h : removeAllLoop oracle path
                    (TEntry.mk name ftype hset children :: rest)
                      = ([(path, DOp.rmdir name)], some e) := by
                  simp only [removeAllLoop, if_neg hdot, if_pos hd, hsf,
                    Bool.false_eq_true, if_false, ho2]
                rw [h]
                exact respects_failSingle oracle (path, DOp.rmdir name) e ho2
              | none =>
                rcases hrest : removeAllLoop oracle path rest with ⟨tr2, r2⟩
                have ihr := ih path rest (by omega)
                rw [hrest] at ihr
                have h : removeAllLoop oracle path
                    (TEntry.mk name ftype hset children :: rest)
                      = ((path, DOp.rmdir name) :: tr2, r2) := by
                  simp only [removeAllLoop, if_neg hdot, if_pos hd, hsf,
                    Bool.false_eq_true, if_false, ho2, hrest]
                rw [h]
                exact respects_prependOk oracle [(path, DOp.rmdir name)]
                  (by
                    intro op hop
                    rw [List.mem_singleton] at hop
                    subst hop
                    exact ho2)
                  (tr2, r2) ihr
          · cases ho2 : oracle path (DOp.removeFile name) with
            | some e =>
              have h : removeAllLoop oracle path
                  (TEntry.mk name ftype hset children :: rest)
                    = ([(path, DOp.removeFile name)], some e) := by
                simp only [removeAllLoop, if_neg hdot, if_neg hd, ho2]
              rw [h]
              exact respects_failSingle oracle (path, DOp.removeFile name) e ho2
            | none =>
              rcases hrest : removeAllLoop oracle path rest with ⟨tr2, r2⟩
              have ihr := ih path rest (by omega)
              rw [hrest] at ihr
              have h : removeAllLoop oracle path
                  (TEntry.mk name ftype hset children :: rest)
                    = ((path, DOp.removeFile name) :: tr2, r2) := by
                simp only [removeAllLoop, if_neg hdot, if_neg hd, ho2, hrest]
              rw [h]
              exact respects_prependOk oracle [(path, DOp.removeFile name)]
                (by
                  intro op hop
                  rw [List.mem_singleton] at hop
                  subst hop
                  exact ho2)
                (tr2, r2) ihr

theorem removeAllT_success
    (oracle : List String → DOp → Option GoError)
    (hor : ∀ p op, oracle p op = none) (path : List String)
    (listing : List TEntry) (hall : allHandles listing = true) :
    removeAllT oracle path listing
      = ((path, DOp.readdir) :: specDeleteEntries path listing, none) := by
  have h := removeAllLoop_success oracle hor (teSize listing) path listing
    (le_refl _) hall
  simp only [removeAllT, hor, h]

theorem removeAllT_respects
    (oracle : List String → DOp → Option GoError) (path : List String)
    (listing : List TEntry) :
    TraceRespects oracle (removeAllT oracle path listing) := by
  cases ho : oracle path DOp.readdir with
  | some e =>
    have h : removeAllT oracle path listing = ([(path, DOp.readdir)], some e) := by
      simp only [removeAllT, ho]
    rw [h]
    exact respects_failSingle oracle (path, DOp.readdir) e ho
  | none =>
    rcases hl : removeAllLoop oracle path listing with ⟨tr, r⟩
    have hresp := removeAllLoop_respects oracle (teSize listing) path listing
      (le_refl _)
    rw [hl] at hresp
    have h : removeAllT oracle path listing = ((path, DOp.readdir) :: tr, r) := by
      simp only [removeAllT, ho, hl]
    rw [h]
    exact respects_prependOk oracle [(path, DOp.readdir)]
      (by
        intro op hop
        rw [List.mem_singleton] at hop
        subst hop
        exact ho)
      (tr, r) hresp

/-- C6: recursive delete first attempts a plain rmdir of the leaf under
the resolved parent; if that attempt succeeds or fails with the
does-not-exist error the whole operation returns success having executed
nothing but the attempt (so removing a non-existent path returns no
error), and if it fails with a not-a-directory error that error is
returned immediately, again with nothing further deleted. -/
theorem c6_removeall_shortcuts (parentPath : List String) (deleteDir : String)
    (lookupRes : Except GoError Unit)
    (oracle : List String → DOp → Option GoError) (listing : List TEntry)
    (rmdirFinal : Option GoError) :
    (RemoveAllGo parentPath deleteDir none lookupRes oracle listing rmdirFinal
        = ([(parentPath, DOp.rmdir deleteDir)], none)) ∧
    (RemoveAllGo parentPath deleteDir (some GoError.osErrNotExist) lookupRes
        oracle listing rmdirFinal
        = ([(parentPath, DOp.rmdir deleteDir)], none)) ∧
    (∀ e, IsNotDirError e = true →
      RemoveAllGo parentPath deleteDir (some e) lookupRes oracle listing
          rmdirFinal
        = ([(parentPath, DOp.rmdir deleteDir)], some e)) := by
  refine ⟨rfl, ?_, ?_⟩
  · simp [RemoveAllGo, osIsNotExist]
  · intro e he
    have hnfs : e = GoError.nfs ("error: " ++ Nat.repr NFS3ERR_NOTDIR) := by
      simpa [IsNotDirError] using he
    have hne : osIsNotExist e = false := by
      subst hnfs; rfl
    simp [RemoveAllGo, hne, he]

/-- C6 witness: a not-a-directory failure of the initial rmdir attempt
(protocol code 20) is returned immediately with nothing further
executed. -/
theorem c6_removeall_shortcuts_witness :
    RemoveAllGo ["p"] "d" (some (GoError.nfs "error: 20")) (Except.ok ())
        (fun _ _ => none) [] none
      = ([(["p"], DOp.rmdir "d")], some (GoError.nfs "error: 20")) :=
  (c6_removeall_shortcuts ["p"] "d" (Except.ok ()) (fun _ _ => none) []
    none).2.2 (GoError.nfs "error: 20") (by decide)

/-- C7: the recursive delete lists the target directory and processes
its entries in order, skipping `.` and `..`; when no remote operation
fails and every directory entry carries a handle, its behaviour is
exactly the spec's depth-first sequence — for each child directory the
subtree's deletions come before that directory's own rmdir, files are
removed with the file-remove call (`specDeleteEntries`); in general the
executed trace aborts at the first failing operation, propagating that
error with no retry or continuation; and when the recursive phase
succeeds, `RemoveAll` finishes by rmdir-ing the now-empty top-level
directory as the last operation. -/
theorem c7_recursive_delete (oracle : List String → DOp → Option GoError)
    (path : List String) (listing : List TEntry) :
    ((∀ p op, oracle p op = none) → allHandles listing = true →
      removeAllT oracle path listing
        = ((path, DOp.readdir) :: specDeleteEntries path listing, none)) ∧
    TraceRespects oracle (removeAllT oracle path listing) ∧
    (∀ (pp : List String) (dd : String) (e1 : GoError)
        (rmf : Option GoError) (tr : List DeleteOp),
      osIsNotExist e1 = false → IsNotDirError e1 = false →
      removeAllT oracle (pp ++ [dd]) listing = (tr, none) →
      RemoveAllGo pp dd (some e1) (Except.ok ()) oracle listing rmf
        = ((pp, DOp.rmdir dd) :: (pp, DOp.lookupStep dd) :: tr ++
            [(pp, DOp.rmdir dd)], rmf)) := by
  refine ⟨?_, removeAllT_respects oracle path listing, ?_⟩
  · intro hor hall
    exact removeAllT_success oracle hor path listing hall
  · intro pp dd e1 rmf tr h1 h2 hrec
    simp only [RemoveAllGo, h1, h2, Bool.false_eq_true, if_false, hrec]

/-- C7 witness: on the spec's tree `a/ {b/ {c.txt}, d.txt}` with an
always-succeeding server, the recursive delete performs exactly the
depth-first sequence. -/
theorem c7_recursive_delete_witness :
    removeAllT (fun _ _ => none) ["a"] exTree
      = ((["a"], DOp.readdir) :: specDeleteEntries ["a"] exTree, none) :=
  (c7_recursive_delete (fun _ _ => none) ["a"] exTree).1 (fun _ _ => rfl)
    (by simp [allHandles, exTree, NF3Dir])

/-- C10: a listed child whose attributes say directory but whose
optional handle is absent is not recursed into: the rmdir is attempted
directly under the current directory, and when the server rejects it
(as it does for a non-empty directory, e.g. with the not-empty protocol
error) the whole operation fails right there — the trace holds exactly
that one rmdir and no operation inside the child. -/
theorem c10_no_handle_no_recursion
    (oracle : List String → DOp → Option GoError) (path : List String)
    (name : String) (children rest : List TEntry) (e : GoError)
    (hdot1 : name ≠ ".") (hdot2 : name ≠ "..")
    (hsrv : oracle path (DOp.rmdir name) = some e) :
    removeAllLoop oracle path (TEntry.mk name NF3Dir false children :: rest)
      = ([(path, DOp.rmdir name)], some e) := by
  have hd : ¬ (name = "." ∨ name = "..") := by
    rintro (h | h)
    exacts [hdot1 h, hdot2 h]
  simp [removeAllLoop, hd, hsrv]

/-- C10 witness: a handleless non-empty child directory `sub` of `top`:
the single issued operation is the direct rmdir, which fails with the
not-empty protocol error. -/
theorem c10_no_handle_no_recursion_witness :
    removeAllLoop
        (fun p op =>
          if p = ["top"] ∧ op = DOp.rmdir "sub"
          then some (GoError.nfs "error: 66") else none)
        ["top"] [TEntry.mk "sub" NF3Dir false [TEntry.mk "x.txt" 1 false []]]
      = ([(["top"], DOp.rmdir "sub")], some (GoError.nfs "error: 66")) :=
  c10_no_handle_no_recursion _ ["top"] "sub"
    [TEntry.mk "x.txt" 1 false []] [] (GoError.nfs "error: 66")
    (by decide) (by decide) (by simp)
